import Mathlib

set_option maxRecDepth 8000

/-!
Verification of the noir-mip parameter-generation pipeline (src/main.rs).

The development shallowly embeds the Rust program: byte buffers are
modelled as List Nat (each element a byte value), machine integers as Nat
(all the integers handled by the program are unsigned and no wrapping
arithmetic occurs; where a fixed width matters an explicit bound or
mod 2 ^ w appears), fallible steps (panics, early Err returns) as
Except / Option, and the keccak-256 digest function as an explicit
function parameter, since every property proved here only needs the same
digest function to be applied at both verification points.

The RLP primitives mirror the rlp crate exactly as used by the program:
a value append writes the canonical byte-string encoding, begin_list
records the announced item count, and the list length prefix is inserted
only once the announced number of items has been appended; the raw
buffer of a stream whose announced count was never reached therefore
lacks the list prefix, and RlpStream.out panics on such a stream.
-/

namespace NoirMip

/-- Constant BLOCK_HEADER_RLP_BYTES from src/main.rs line 9. -/
def BLOCK_HEADER_RLP_BYTES : Nat := 590

/-- Constant PROOF_BYTES_LEN from src/main.rs line 10. -/
def PROOF_BYTES_LEN : Nat := 532

/-- Constant ACCOUNT_PROOF_MAX_DEPTH from src/main.rs line 11. -/
def ACCOUNT_PROOF_MAX_DEPTH : Nat := 10

/-- Constant STORAGE_PROOF_MAX_DEPTH from src/main.rs line 12. -/
def STORAGE_PROOF_MAX_DEPTH : Nat := 9

/-- Minimal big-endian byte representation of a Nat, structural-fuel
implementation (fuel n is always enough since a number has at most as
many base-256 digits as its own value; beBytes 0 = []). This is the
byte sequence the rlp crate writes for an unsigned integer. -/
def beBytesAux : Nat → Nat → List Nat
  | 0, _ => []
  | fuel + 1, n => if n = 0 then [] else beBytesAux fuel (n / 256) ++ [n % 256]

/-- Minimal big-endian bytes of n (empty for 0). -/
def beBytes (n : Nat) : List Nat := beBytesAux n n

/-- Big-endian interpretation of a byte list, as read by the rlp crate
when decoding a multi-byte length. -/
def beToNat (bs : List Nat) : Nat := bs.foldl (fun acc b => acc * 256 + b) 0

/-- RLP byte-string encoding of a byte sequence (rlp crate encode_value):
a single byte below 0x80 stands for itself; otherwise a short string gets
the 0x80+len prefix and a long string the 0xb7+lenlen prefix followed by
the big-endian length. -/
def encodeBytes : List Nat → List Nat
  | [b] => if b < 128 then [b] else [129, b]
  | bs =>
    if bs.length ≤ 55 then (128 + bs.length) :: bs
    else (183 + (beBytes bs.length).length) :: (beBytes bs.length ++ bs)

/-- RLP encoding of an unsigned integer: the byte-string encoding of its
minimal big-endian representation (zero encodes as the empty string). -/
def encodeNat (n : Nat) : List Nat := encodeBytes (beBytes n)

/-- RLP list length prefix for a payload of the given byte length
(rlp crate insert_list_payload). -/
def listHeader (payloadLen : Nat) : List Nat :=
  if payloadLen ≤ 55 then [192 + payloadLen]
  else (247 + (beBytes payloadLen).length) :: beBytes payloadLen

/-- Right-pad a byte buffer with zero bytes up to width w; buffers already
at least w bytes long are returned unchanged. This is the shape of the
three while-push-0 loops of src/main.rs (lines 147-149, 170-172, 191-193). -/
def rpad (w : Nat) (bs : List Nat) : List Nat :=
  bs ++ List.replicate (w - bs.length) 0

/-- find_subarray from src/main.rs lines 46-50: the position of the first
window of the array equal to the subarray (array.windows(len).position).
The program only ever calls this with a nonempty subarray; for an empty
subarray this total model returns some 0. -/
def find_subarray : List Nat → List Nat → Option Nat
  | [], sub => if sub.length = 0 then some 0 else none
  | a :: rest, sub =>
    if sub.length ≤ rest.length + 1 then
      if (a :: rest).take sub.length = sub then some 0
      else (find_subarray rest sub).map (fun i => i + 1)
    else none

/-- split_rlp_by_state_root from src/main.rs lines 31-44: locate the first
occurrence of the state-root bytes and return
(bytes before it, rlp_data[start..start+32], bytes from start+32). The 32
is hard-coded in the source; for a 32-byte state root (the only length the
program produces) the middle segment is exactly the matched window. -/
def split_rlp_by_state_root (rlp_data state_root : List Nat) :
    Option (List Nat × List Nat × List Nat) :=
  match find_subarray rlp_data state_root with
  | some start =>
    some (rlp_data.take start, (rlp_data.drop start).take 32, rlp_data.drop (start + 32))
  | none => none

/-- A block record as consumed by the program (web3 Block<H256>): hashes
and address fields are byte lists, numeric fields are Nat, optional
fields are Option. -/
structure Block where
  parent_hash : List Nat
  uncles_hash : List Nat
  author : List Nat
  state_root : List Nat
  transactions_root : List Nat
  receipts_root : List Nat
  logs_bloom : Option (List Nat)
  difficulty : Nat
  number : Option Nat
  gas_limit : Nat
  gas_used : Nat
  timestamp : Nat
  extra_data : List Nat
  mix_hash : Option (List Nat)
  nonce : Option (List Nat)
  base_fee_per_gas : Option Nat
  hash : Option (List Nat)
deriving DecidableEq

/-- bloom_to_bytes from src/main.rs lines 14-21: the bloom bytes, or an
empty buffer when the field is absent. -/
def bloom_to_bytes : Option (List Nat) → List Nat
  | some bloom => bloom
  | none => []

/-- The fifteen unconditional appends of rlp_encode_block
(src/main.rs lines 63-77), each already in its RLP item encoding, in
source order. Absent number defaults to 0, absent mix hash to the
all-zero H256, absent nonce to the all-zero H64 (unwrap_or_default). -/
def baseFields (b : Block) : List (List Nat) :=
  [encodeBytes b.parent_hash,
   encodeBytes b.uncles_hash,
   encodeBytes b.author,
   encodeBytes b.state_root,
   encodeBytes b.transactions_root,
   encodeBytes b.receipts_root,
   encodeBytes (bloom_to_bytes b.logs_bloom),
   encodeNat b.difficulty,
   encodeNat (b.number.getD 0),
   encodeNat b.gas_limit,
   encodeNat b.gas_used,
   encodeNat b.timestamp,
   encodeBytes b.extra_data,
   encodeBytes (b.mix_hash.getD (List.replicate 32 0)),
   encodeBytes (b.nonce.getD (List.replicate 8 0))]

/-- The conditional sixteenth append of rlp_encode_block
(src/main.rs lines 79-83): the base fee is appended only when present and
nonzero. -/
def baseFeeItems (b : Block) : List (List Nat) :=
  match b.base_fee_per_gas with
  | some v => if v ≠ 0 then [encodeNat v] else []
  | none => []

/-- All items actually appended to the header stream. -/
def encItems (b : Block) : List (List Nat) := baseFields b ++ baseFeeItems b

/-- The item count announced to begin_list (src/main.rs lines 55-62):
15, plus one whenever base_fee_per_gas is present (regardless of its
value). -/
def declaredItems (b : Block) : Nat :=
  match b.base_fee_per_gas with
  | some _ => 16
  | none => 15

/-- Whether the stream's announced item count was reached, i.e. whether
the rlp crate has closed the list and inserted its length prefix. -/
def encodeFinished (b : Block) : Bool :=
  (encItems b).length == declaredItems b

/-- The bytes of the stream as read by as_raw() at src/main.rs line 85:
the list payload, with the list length prefix present exactly when the
announced item count was reached (the rlp crate inserts the prefix only
on list completion). -/
def rawEncoding (b : Block) : List Nat :=
  let payload := (encItems b).flatten
  if encodeFinished b then listHeader payload.length ++ payload else payload

/-- Failure conditions of the pipeline; every panic and every early Err
return of src/main.rs is mapped to one of these. -/
inductive Err where
  | noArgs
  | envVarMissing
  | badBlockNumber
  | badHex
  | badLength
  | unwrapNone
  | hashMismatch
  | streamNotFinished
  | decodeFailed
  | splitFailed
  | indexOutOfBounds
  | argsIndexOOB
  | invalidCommand
deriving DecidableEq

/-- A value printed by the Parameter Assembler: a byte buffer or a bare
number (the printed lengths and depths). -/
inductive PVal where
  | bytes (bs : List Nat)
  | num (n : Nat)
deriving DecidableEq

/-- Observable steps of a run: a hash comparison of a buffer against an
expected digest (each assert_eq on a keccak result), the header
zero-padding step, a named parameter output line, and a diagnostic line
on standard error. -/
inductive Event where
  | hashCheck (buf expected : List Nat)
  | padHeader
  | emit (name : String) (val : PVal)
  | stderr (msg : String)
deriving DecidableEq

/-- Event classifiers. -/
def isHashCheck : Event → Bool
  | Event.hashCheck _ _ => true
  | _ => false

def isEmit : Event → Bool
  | Event.emit _ _ => true
  | _ => false

/-- True when no hash comparison happens at or after the header padding
step (every hash check precedes the first padding event). -/
def checksBeforePad : List Event → Bool
  | [] => true
  | Event.padHeader :: rest => rest.all (fun e => ! isHashCheck e)
  | _ :: rest => checksBeforePad rest

/-- rlp_encode_block from src/main.rs lines 52-94 as a run step: builds
the stream bytes, then asserts that the keccak digest of as_raw() equals
the block's published hash (panicking on a missing hash or a mismatch),
and finally returns out(), which panics when the announced item count was
never reached. The digest comparison is recorded as a hashCheck event. -/
def rlpEncodeBlockRun (kec : List Nat → List Nat) (b : Block) :
    List Event × Except Err (List Nat) :=
  let raw := rawEncoding b
  match b.hash with
  | none => ([], Except.error Err.unwrapNone)
  | some h =>
    ([Event.hashCheck raw h],
      if kec raw = h then
        if encodeFinished b then Except.ok raw else Except.error Err.streamNotFinished
      else Except.error Err.hashMismatch)

/-- Header byte-length and payload byte-length of the RLP item starting
at the head of the buffer (rlp crate PayloadInfo, with bounds checks; the
crate's canonical-form rejections of some malformed encodings are not
modelled, which is immaterial here because every pipeline claim about the
decoder hypothesises a successful decode). -/
def payloadInfo : List Nat → Option (Nat × Nat)
  | [] => none
  | b :: rest =>
    if b < 128 then some (0, 1)
    else if b < 184 then some (1, b - 128)
    else if b < 192 then
      let ll := b - 183
      if ll ≤ rest.length then some (1 + ll, beToNat (rest.take ll)) else none
    else if b < 248 then some (1, b - 192)
    else
      let ll := b - 247
      if ll ≤ rest.length then some (1 + ll, beToNat (rest.take ll)) else none

/-- Payload of the i-th item of a list payload, skipping complete items
(Rlp item iteration). -/
def rlpNth : List Nat → Nat → Option (List Nat)
  | payload, 0 =>
    match payloadInfo payload with
    | some (hs, pl) =>
      if hs + pl ≤ payload.length then some ((payload.drop hs).take pl) else none
    | none => none
  | payload, i + 1 =>
    match payloadInfo payload with
    | some (hs, pl) =>
      if hs + pl ≤ payload.length then rlpNth (payload.drop (hs + pl)) i else none
    | none => none

/-- Rlp::new(buf).at(i).data() from src/main.rs lines 122-134: requires
the buffer to be an RLP list, then returns the payload of its i-th item.
Both the at() failure and the data() failure of the source map to none. -/
def rlpAt (buf : List Nat) (i : Nat) : Option (List Nat) :=
  match buf with
  | [] => none
  | b :: _ =>
    if 192 ≤ b then
      match payloadInfo buf with
      | some (hs, pl) =>
        if hs + pl ≤ buf.length then rlpNth ((buf.drop hs).take pl) i else none
      | none => none
    else none

/-- One storage proof entry of the fetched proof response
(web3 StorageProof: key, value, proof nodes). -/
structure StorageProofEntry where
  key : Nat
  value : Nat
  proof : List (List Nat)
deriving DecidableEq

/-- The fetched account proof response (web3 EIP1186ProofResponse as
consumed by the program). -/
structure ProofResponse where
  nonce : Nat
  balance : Nat
  storage_hash : List Nat
  code_hash : List Nat
  account_proof : List (List Nat)
  storage_proof : List StorageProofEntry
deriving DecidableEq

/-- Default-valued proof response (unwrap_or_default at src/main.rs line
156): zero scalars, all-zero 32-byte hashes, empty proof lists. -/
def ProofResponse.default : ProofResponse :=
  { nonce := 0, balance := 0, storage_hash := List.replicate 32 0,
    code_hash := List.replicate 32 0, account_proof := [], storage_proof := [] }

/-- The Proof Normalizer (src/main.rs lines 166-178 and 187-199): pad
each node on the right with zeros to width w, then append all-zero nodes
of width w until at least n nodes are present. A node already w bytes or
longer is left unchanged, and nodes beyond the n-th are kept. -/
def normalizeProof (w n : Nat) (nodes : List (List Nat)) : List (List Nat) :=
  nodes.map (rpad w) ++
    List.replicate (n - (nodes.map (rpad w)).length) (List.replicate w 0)

/-- The account value stream of src/main.rs lines 158-164: a 4-item RLP
list of nonce, balance, storage hash and code hash; the announced count
is reached, so as_raw() carries the list prefix. -/
def accountValueRlp (p : ProofResponse) : List Nat :=
  let payload := encodeNat p.nonce ++ encodeNat p.balance ++
    encodeBytes p.storage_hash ++ encodeBytes p.code_hash
  listHeader payload.length ++ payload

/-- U256::to_big_endian: the 32-byte big-endian image of a value (the
program only feeds values below 2 ^ 256 here). -/
def be32 (n : Nat) : List Nat :=
  let bs := beBytes (n % 2 ^ 256)
  List.replicate (32 - bs.length) 0 ++ bs

/-- u64::from_str_radix(s, 10) (src/main.rs line 108): an optional
leading plus sign, then at least one decimal digit, rejecting any value
reaching 2 ^ 64. -/
def from_str_radix_10 (s : String) : Option Nat :=
  let ds := match s.data with
            | '+' :: rest => rest
            | cs => cs
  if ds.isEmpty then none
  else
    ds.foldl
      (fun acc c =>
        match acc with
        | some v =>
          if '0' ≤ c ∧ c ≤ '9' then
            if v * 10 + (c.toNat - 48) < 2 ^ 64 then some (v * 10 + (c.toNat - 48))
            else none
          else none
        | none => none)
      (some 0)

/-- Value of one hexadecimal digit character. -/
def hexVal (c : Char) : Option Nat :=
  if '0' ≤ c ∧ c ≤ '9' then some (c.toNat - 48)
  else if 'a' ≤ c ∧ c ≤ 'f' then some (c.toNat - 87)
  else if 'A' ≤ c ∧ c ≤ 'F' then some (c.toNat - 55)
  else none

/-- hex::decode: pairs of hex digits to bytes; odd length or a non-hex
character fails. -/
def hexDecode : List Char → Option (List Nat)
  | [] => some []
  | [_] => none
  | c1 :: c2 :: rest =>
    match hexVal c1, hexVal c2, hexDecode rest with
    | some hi, some lo, some bs => some ((hi * 16 + lo) :: bs)
    | _, _, _ => none

/-- The configuration environment read by main: the four environment
variables, each possibly unset. -/
structure Env where
  mainnet_rpc : Option String
  block_number : Option String
  target_account : Option String
  storage_slot : Option String
deriving DecidableEq

/-- The body of the Some(block) branch of main (src/main.rs lines
114-241): decode the configured account and slot, re-encode and
self-verify the header, decode the state root out of the encoded bytes
(field index 3), split the buffer at its first occurrence, verify the
digest a second time, zero-pad the header to BLOCK_HEADER_RLP_BYTES,
normalize both proofs, and emit the parameter set selected by the
command token. Every panic and Err return is an Except error. -/
def runFound (kec : List Nat → List Nat) (args : List String) (env : Env)
    (block : Block) (pr : Option ProofResponse) : List Event × Except Err Unit :=
  match env.target_account with
  | none => ([], Except.error Err.envVarMissing)
  | some ta =>
    match hexDecode ta.data with
    | none => ([], Except.error Err.badHex)
    | some taBytes =>
      if taBytes.length = 20 then
        match env.storage_slot with
        | none => ([], Except.error Err.envVarMissing)
        | some ss =>
          match hexDecode ss.data with
          | none => ([], Except.error Err.badHex)
          | some slotBytes =>
            if slotBytes.length = 32 then
              match rlpEncodeBlockRun kec block with
              | (evs0, Except.error e) => (evs0, Except.error e)
              | (evs0, Except.ok encoded) =>
                match rlpAt encoded 3 with
                | none => (evs0, Except.error Err.decodeFailed)
                | some state_root =>
                  match split_rlp_by_state_root encoded state_root with
                  | none => (evs0, Except.error Err.splitFailed)
                  | some (rlpHead, _, rlpTail) =>
                    match block.hash with
                    | none => (evs0, Except.error Err.unwrapNone)
                    | some h =>
                      let evs1 := evs0 ++ [Event.hashCheck encoded h]
                      if kec encoded = h then
                        let padded := rpad BLOCK_HEADER_RLP_BYTES encoded
                        let evs2 := evs1 ++ [Event.padHeader]
                        let p := pr.getD ProofResponse.default
                        let accFlat :=
                          (normalizeProof PROOF_BYTES_LEN ACCOUNT_PROOF_MAX_DEPTH
                            p.account_proof).flatten
                        match p.storage_proof[0]? with
                        | none => (evs2, Except.error Err.indexOutOfBounds)
                        | some sp0 =>
                          let stoFlat :=
                            (normalizeProof PROOF_BYTES_LEN STORAGE_PROOF_MAX_DEPTH
                              sp0.proof).flatten
                          match args[1]? with
                          | none => (evs2, Except.error Err.argsIndexOOB)
                          | some cmd =>
                            if cmd = "gen_prove_params" then
                              (evs2 ++
                                [Event.emit "block_hash" (PVal.bytes h),
                                 Event.emit "account_key" (PVal.bytes taBytes),
                                 Event.emit "account_value" (PVal.bytes (accountValueRlp p)),
                                 Event.emit "storage_key" (PVal.bytes (be32 sp0.key)),
                                 Event.emit "storage_value" (PVal.bytes (be32 sp0.value)),
                                 Event.emit "block_header_rlp" (PVal.bytes padded),
                                 Event.emit "block_header_rlp_head_len" (PVal.num rlpHead.length),
                                 Event.emit "block_header_rlp_tail_len" (PVal.num rlpTail.length),
                                 Event.emit "storage_root" (PVal.bytes p.storage_hash),
                                 Event.emit "account_proof" (PVal.bytes accFlat),
                                 Event.emit "storage_proof" (PVal.bytes stoFlat),
                                 Event.emit "account_proof_depth" (PVal.num p.account_proof.length),
                                 Event.emit "storage_proof_depth" (PVal.num sp0.proof.length)],
                               Except.ok ())
                            else if cmd = "gen_verify_params" then
                              (evs2 ++
                                [Event.emit "account_key" (PVal.bytes taBytes),
                                 Event.emit "account_value" (PVal.bytes (accountValueRlp p)),
                                 Event.emit "block_hash" (PVal.bytes h),
                                 Event.emit "storage_key" (PVal.bytes (be32 sp0.key)),
                                 Event.emit "storage_value" (PVal.bytes (be32 sp0.value))],
                               Except.ok ())
                            else (evs2, Except.error Err.invalidCommand)
                      else (evs1, Except.error Err.hashMismatch)
            else ([], Except.error Err.badLength)
      else ([], Except.error Err.badLength)

/-- main from src/main.rs lines 96-246: reject an argument-less
invocation, read and parse the configuration, then either run the found
block's pipeline or report a missing block on standard error and exit
successfully. The two network fetch results (block? and pr) are the
inputs supplied by the Chain Data Source. -/
def runMain (kec : List Nat → List Nat) (args : List String) (env : Env)
    (block? : Option Block) (pr : Option ProofResponse) :
    List Event × Except Err Unit :=
  if args.length = 1 then ([], Except.error Err.noArgs)
  else
    match env.mainnet_rpc with
    | none => ([], Except.error Err.envVarMissing)
    | some _ =>
      match env.block_number with
      | none => ([], Except.error Err.envVarMissing)
      | some bn =>
        match from_str_radix_10 bn with
        | none => ([], Except.error Err.badBlockNumber)
        | some _ =>
          match block? with
          | none => ([Event.stderr "Block not found!"], Except.ok ())
          | some b => runFound kec args env b pr

/-! Concrete inputs used by the witness theorems. -/

/-- A 32-byte state root with a recognizable byte pattern. -/
def wRoot : List Nat := List.replicate 32 7

/-- The digest value claimed by the sample block. -/
def wHash : List Nat := List.replicate 32 9

/-- A sample pre-base-fee block with small distinct field patterns. -/
def wBlock : Block :=
  { parent_hash := List.replicate 32 1, uncles_hash := List.replicate 32 2,
    author := List.replicate 20 3, state_root := wRoot,
    transactions_root := List.replicate 32 4, receipts_root := List.replicate 32 5,
    logs_bloom := none, difficulty := 0, number := some 0, gas_limit := 0,
    gas_used := 0, timestamp := 0, extra_data := [], mix_hash := none,
    nonce := none, base_fee_per_gas := none, hash := some wHash }

/-- A digest function that reports the sample block's claimed hash, so
its self-verification passes. -/
def wKec : List Nat → List Nat := fun _ => wHash

/-- The raw encoding of the sample block (237 bytes; its state root
starts at offset 90). -/
def wBuf : List Nat := rawEncoding wBlock

/-- The sample block with a present-but-zero base fee. -/
def wBlockZero : Block := { wBlock with base_fee_per_gas := some 0 }

/-- The sample block claiming a hash its encoding does not have under
wKecBad. -/
def wBlockBad : Block := { wBlock with hash := some (List.replicate 32 2) }

/-- A digest function that never returns wBlockBad's claimed hash. -/
def wKecBad : List Nat → List Nat := fun _ => [1]

/-- A complete configuration environment with well-formed values. -/
def wEnv : Env :=
  { mainnet_rpc := some "rpc", block_number := some "17",
    target_account := some (String.mk (List.replicate 40 '0')),
    storage_slot := some (String.mk (List.replicate 64 '0')) }

/-- A two-token argument vector selecting verify mode. -/
def wArgs : List String := ["prog", "gen_verify_params"]

/-- Six 300-byte nodes, the concrete scenario of claim C7. -/
def wNodes6 : List (List Nat) := List.replicate 6 (List.replicate 300 1)

/-- A node one byte longer than PROOF_BYTES_LEN. -/
def wNodeBig : List Nat := List.replicate 533 1

/-- Eleven oversized nodes: more nodes than ACCOUNT_PROOF_MAX_DEPTH. -/
def wNodesBig : List (List Nat) := List.replicate 11 wNodeBig

/-- Eleven 300-byte nodes: more nodes than ACCOUNT_PROOF_MAX_DEPTH while
every node stays within PROOF_BYTES_LEN. -/
def wNodesMany : List (List Nat) := List.replicate 11 (List.replicate 300 1)

/-- A 32-byte pattern 1..32 used as a split target. -/
def wRootSplit : List Nat := (List.range 32).map (fun i => i + 1)

/-- A 38-byte buffer containing wRootSplit exactly once, at offset 5. -/
def wBufSplit : List Nat := List.replicate 5 0 ++ wRootSplit ++ [9]

/-! Helper lemmas. -/

theorem rpad_length (w : Nat) (bs : List Nat) :
    (rpad w bs).length = bs.length + (w - bs.length) := by
  simp [rpad]

theorem rpad_length_of_le (w : Nat) (bs : List Nat) (h : bs.length ≤ w) :
    (rpad w bs).length = w := by
  rw [rpad_length]; omega

theorem le_rpad_length (w : Nat) (bs : List Nat) : w ≤ (rpad w bs).length := by
  rw [rpad_length]; omega

theorem rpad_of_ge (w : Nat) (bs : List Nat) (h : w ≤ bs.length) :
    rpad w bs = bs := by
  simp [rpad, Nat.sub_eq_zero_of_le h]

theorem sum_map_length_const (l : List (List Nat)) (w : Nat)
    (h : ∀ x ∈ l, x.length = w) : (l.map List.length).sum = l.length * w := by
  induction l with
  | nil => simp
  | cons a t ih =>
    have ha : a.length = w := h a (List.mem_cons_self a t)
    have ht := ih (fun x hx => h x (List.mem_cons_of_mem a hx))
    simp [ha, ht, Nat.succ_mul, Nat.add_comm]

theorem sum_map_length_lb (l : List (List Nat)) (w : Nat)
    (h : ∀ x ∈ l, w ≤ x.length) : l.length * w ≤ (l.map List.length).sum := by
  induction l with
  | nil => simp
  | cons a t ih =>
    have ha : w ≤ a.length := h a (List.mem_cons_self a t)
    have ht := ih (fun x hx => h x (List.mem_cons_of_mem a hx))
    simp only [List.map_cons, List.sum_cons, List.length_cons, Nat.succ_mul]
    omega

theorem sum_map_length_strict (l : List (List Nat)) (w : Nat) (nd : List Nat)
    (hmem : nd ∈ l) (h : ∀ x ∈ l, w ≤ x.length) (hb : w < nd.length) :
    l.length * w < (l.map List.length).sum := by
  induction l with
  | nil => cases hmem
  | cons a t ih =>
    have ha : w ≤ a.length := h a (List.mem_cons_self a t)
    have ht := sum_map_length_lb t w (fun x hx => h x (List.mem_cons_of_mem a hx))
    rcases List.mem_cons.mp hmem with hEq | hMem
    · subst hEq
      simp only [List.map_cons, List.sum_cons, List.length_cons, Nat.succ_mul]
      omega
    · have := ih hMem (fun x hx => h x (List.mem_cons_of_mem a hx))
      simp only [List.map_cons, List.sum_cons, List.length_cons, Nat.succ_mul] at this ⊢
      omega

theorem normalizeProof_flatten_length (w n : Nat) (nodes : List (List Nat))
    (h1 : ∀ nd ∈ nodes, nd.length ≤ w) (h2 : nodes.length ≤ n) :
    ((normalizeProof w n nodes).flatten).length = n * w := by
  have hpad : ∀ x ∈ nodes.map (rpad w), x.length = w := by
    intro x hx
    rcases List.mem_map.mp hx with ⟨nd, hnd, hEq⟩
    subst hEq
    exact rpad_length_of_le w nd (h1 nd hnd)
  have hsum : ((nodes.map (rpad w)).map List.length).sum = nodes.length * w := by
    rw [sum_map_length_const _ w hpad, List.length_map]
  have hfill : ((List.replicate (n - nodes.length) (List.replicate w 0)).map
      List.length).sum = (n - nodes.length) * w := by
    simp [List.map_replicate, List.sum_replicate, smul_eq_mul]
  have hn : nodes.length + (n - nodes.length) = n := by omega
  calc ((normalizeProof w n nodes).flatten).length
      = ((nodes.map (rpad w)).map List.length).sum +
        ((List.replicate (n - nodes.length) (List.replicate w 0)).map
          List.length).sum := by
        simp [normalizeProof, List.length_flatten]
    _ = nodes.length * w + (n - nodes.length) * w := by rw [hsum, hfill]
    _ = n * w := by rw [← Nat.add_mul, hn]

theorem flatten_replicate_replicate (a b x : Nat) :
    (List.replicate a (List.replicate b x)).flatten = List.replicate (a * b) x := by
  induction a with
  | zero => simp
  | succ k ih =>
    rw [List.replicate_succ, List.flatten_cons, ih, Nat.succ_mul, Nat.add_comm,
      List.replicate_add]

theorem wNodes6_lengths : ∀ nd ∈ wNodes6, nd.length = 300 := by
  intro nd hnd
  rw [List.eq_of_mem_replicate hnd]
  simp

theorem find_subarray_some (arr sub : List Nat) (i : Nat)
    (h : find_subarray arr sub = some i) :
    i + sub.length ≤ arr.length ∧ (arr.drop i).take sub.length = sub ∧
    ∀ j < i, (arr.drop j).take sub.length ≠ sub := by
  induction arr generalizing i with
  | nil =>
    unfold find_subarray at h
    split at h
    · rename_i h0
      cases h
      have hsub : sub = [] := List.length_eq_zero.mp h0
      subst hsub
      exact ⟨by simp, by simp, by omega⟩
    · cases h
  | cons a rest ih =>
    unfold find_subarray at h
    split at h
    · rename_i hfit
      split at h
      · rename_i hmatch
        cases h
        refine ⟨by simpa using hfit, by simpa using hmatch, by omega⟩
      · rename_i hmiss
        rcases Option.map_eq_some'.mp h with ⟨i0, hfind, hEq⟩
        subst hEq
        obtain ⟨hbound, hmatch0, hmin⟩ := ih i0 hfind
        refine ⟨by simp; omega, by simpa using hmatch0, ?_⟩
        intro j hj
        cases j with
        | zero => simpa using hmiss
        | succ j0 =>
          rw [List.drop_succ_cons]
          exact hmin j0 (by omega)
    · cases h

theorem find_subarray_none (arr sub : List Nat)
    (h : find_subarray arr sub = none) :
    ∀ j, (arr.drop j).take sub.length ≠ sub := by
  induction arr with
  | nil =>
    unfold find_subarray at h
    split at h
    · cases h
    · rename_i h0
      intro j heq
      apply h0
      rw [← heq]
      simp [List.length_take]
  | cons a rest ih =>
    unfold find_subarray at h
    split at h
    · split at h
      · cases h
      · rename_i hmiss
        have hrest : find_subarray rest sub = none := by
          cases hfind : find_subarray rest sub with
          | none => rfl
          | some i0 => rw [hfind] at h; cases h
        intro j
        cases j with
        | zero => simpa using hmiss
        | succ j0 =>
          rw [List.drop_succ_cons]
          exact ih hrest j0
    · rename_i hfit
      intro j heq
      have hlen := congrArg List.length heq
      rw [List.length_take, List.length_drop] at hlen
      simp only [List.length_cons] at hlen hfit
      omega

theorem rlpEncodeBlockRun_ok (kec : List Nat → List Nat) (b : Block)
    (evs : List Event) (out : List Nat)
    (h : rlpEncodeBlockRun kec b = (evs, Except.ok out)) :
    ∃ hh, b.hash = some hh ∧ kec (rawEncoding b) = hh ∧
      encodeFinished b = true ∧ out = rawEncoding b ∧
      evs = [Event.hashCheck (rawEncoding b) hh] := by
  unfold rlpEncodeBlockRun at h
  cases hb : b.hash with
  | none => rw [hb] at h; simp at h
  | some hh =>
    rw [hb] at h
    simp only [Prod.mk.injEq] at h
    obtain ⟨hevs, hres⟩ := h
    split at hres
    · split at hres
      · rename_i hkec hfin
        injection hres with hout
        exact ⟨hh, rfl, hkec, hfin, hout.symm, hevs.symm⟩
      · cases hres
    · cases hres

theorem rlpEncodeBlockRun_error (kec : List Nat → List Nat) (b : Block)
    (evs : List Event) (e : Err)
    (h : rlpEncodeBlockRun kec b = (evs, Except.error e)) :
    (b.hash = none ∧ evs = [] ∧ e = Err.unwrapNone) ∨
    (∃ hh, b.hash = some hh ∧ evs = [Event.hashCheck (rawEncoding b) hh] ∧
      (e = Err.hashMismatch ∨ e = Err.streamNotFinished)) := by
  unfold rlpEncodeBlockRun at h
  cases hb : b.hash with
  | none =>
    rw [hb] at h
    simp only [Prod.mk.injEq] at h
    obtain ⟨hevs, hres⟩ := h
    injection hres with he
    exact Or.inl ⟨rfl, hevs.symm, he.symm⟩
  | some hh =>
    rw [hb] at h
    simp only [Prod.mk.injEq] at h
    obtain ⟨hevs, hres⟩ := h
    refine Or.inr ⟨hh, rfl, hevs.symm, ?_⟩
    split at hres
    · split at hres
      · cases hres
      · injection hres with he
        exact Or.inr he.symm
    · injection hres with he
      exact Or.inl he.symm

/-- Exhaustive classification of the observable outcomes of the
found-block pipeline: an eventless early abort, an abort after the first
(encoder-internal) hash check, the specific split failure, an abort
after both checks and the padding step, or a successful run whose
trailing events are exactly the emitted parameters. -/
theorem runFound_shape (kec : List Nat → List Nat) (args : List String) (env : Env)
    (b : Block) (pr : Option ProofResponse) (evs : List Event) (res : Except Err Unit)
    (h : runFound kec args env b pr = (evs, res)) :
    (evs = [] ∧ ∃ e, res = Except.error e ∧ e ≠ Err.splitFailed) ∨
    (∃ hh, b.hash = some hh ∧
      ((evs = [Event.hashCheck (rawEncoding b) hh] ∧
        ((∃ e, res = Except.error e ∧ e ≠ Err.splitFailed) ∨
         (∃ root, rlpAt (rawEncoding b) 3 = some root ∧
            split_rlp_by_state_root (rawEncoding b) root = none ∧
            res = Except.error Err.splitFailed))) ∨
       (∃ root s, kec (rawEncoding b) = hh ∧
          rlpAt (rawEncoding b) 3 = some root ∧
          split_rlp_by_state_root (rawEncoding b) root = some s ∧
          ((evs = [Event.hashCheck (rawEncoding b) hh,
              Event.hashCheck (rawEncoding b) hh, Event.padHeader] ∧
            ∃ e, res = Except.error e ∧ e ≠ Err.splitFailed) ∨
           (∃ tl, evs = Event.hashCheck (rawEncoding b) hh ::
                Event.hashCheck (rawEncoding b) hh :: Event.padHeader :: tl ∧
              (∀ ev ∈ tl, isEmit ev = true) ∧ res = Except.ok ()))))) := by
  unfold runFound at h
  split at h
  · injection h with h1 h2
    subst h1; subst h2
    exact Or.inl ⟨rfl, Err.envVarMissing, rfl, by decide⟩
  · split at h
    · injection h with h1 h2
      subst h1; subst h2
      exact Or.inl ⟨rfl, Err.badHex, rfl, by decide⟩
    · split at h
      · split at h
        · injection h with h1 h2
          subst h1; subst h2
          exact Or.inl ⟨rfl, Err.envVarMissing, rfl, by decide⟩
        · split at h
          · injection h with h1 h2
            subst h1; subst h2
            exact Or.inl ⟨rfl, Err.badHex, rfl, by decide⟩
          · split at h
            · split at h
              · -- encode step returned an error
                rename_i evs0 e heq
                injection h with h1 h2
                subst h1; subst h2
                rcases rlpEncodeBlockRun_error kec b evs0 e heq with
                  ⟨_, hevs0, he⟩ | ⟨hh, hb, hevs0, he⟩
                · subst hevs0; subst he
                  exact Or.inl ⟨rfl, Err.unwrapNone, rfl, by decide⟩
                · subst hevs0
                  refine Or.inr ⟨hh, hb, Or.inl ⟨rfl, Or.inl ⟨e, rfl, ?_⟩⟩⟩
                  rcases he with he | he <;> subst he <;> decide
              · -- encode step succeeded
                rename_i evs0 encoded heq
                obtain ⟨hh, hb, hkec, _, hout, hevs0⟩ :=
                  rlpEncodeBlockRun_ok kec b evs0 encoded heq
                subst hout; subst hevs0
                split at h
                · injection h with h1 h2
                  subst h1; subst h2
                  exact Or.inr ⟨hh, hb, Or.inl ⟨rfl,
                    Or.inl ⟨Err.decodeFailed, rfl, by decide⟩⟩⟩
                · rename_i root hrlp
                  split at h
                  · rename_i hsplit
                    injection h with h1 h2
                    subst h1; subst h2
                    exact Or.inr ⟨hh, hb, Or.inl ⟨rfl,
                      Or.inr ⟨root, hrlp, hsplit, rfl⟩⟩⟩
                  · rename_i rlpHead rootSeg rlpTail hsplit
                    split at h
                    · rename_i hnone
                      rw [hb] at hnone
                      cases hnone
                    · rename_i h2 hsome
                      rw [hb] at hsome
                      injection hsome with hEq
                      subst hEq
                      split at h
                      · -- second hash comparison passes
                        refine Or.inr ⟨hh, hb, Or.inr ⟨root, (rlpHead, rootSeg, rlpTail),
                          hkec, hrlp, hsplit, ?_⟩⟩
                        dsimp only at h
                        repeat' split at h
                        all_goals (injection h with h1 h2; subst h1; subst h2)
                        all_goals first
                          | exact Or.inl ⟨by simp, Err.indexOutOfBounds, rfl, by decide⟩
                          | exact Or.inl ⟨by simp, Err.argsIndexOOB, rfl, by decide⟩
                          | exact Or.inl ⟨by simp, Err.invalidCommand, rfl, by decide⟩
                          | (exact Or.inr ⟨_,
                              by (try simp only [List.cons_append, List.nil_append,
                                    List.append_assoc]); rfl,
                              by simp [isEmit], rfl⟩)
                      · -- second hash comparison cannot fail after the first passed
                        rename_i hne
                        exact absurd hkec hne
            · injection h with h1 h2
              subst h1; subst h2
              exact Or.inl ⟨rfl, Err.badLength, rfl, by decide⟩
      · injection h with h1 h2
        subst h1; subst h2
        exact Or.inl ⟨rfl, Err.badLength, rfl, by decide⟩

/-- Classification of all runs of main: early eventless aborts, the
clean missing-block exit, and the found-block shapes of runFound_shape. -/
theorem runMain_shape (kec : List Nat → List Nat) (args : List String) (env : Env)
    (block? : Option Block) (pr : Option ProofResponse) (evs : List Event)
    (res : Except Err Unit) (h : runMain kec args env block? pr = (evs, res)) :
    (evs = [] ∧ ∃ e, res = Except.error e ∧ e ≠ Err.splitFailed) ∨
    (block? = none ∧ evs = [Event.stderr "Block not found!"] ∧ res = Except.ok ()) ∨
    (∃ b hh, block? = some b ∧ b.hash = some hh ∧
      ((evs = [Event.hashCheck (rawEncoding b) hh] ∧
        ((∃ e, res = Except.error e ∧ e ≠ Err.splitFailed) ∨
         (∃ root, rlpAt (rawEncoding b) 3 = some root ∧
            split_rlp_by_state_root (rawEncoding b) root = none ∧
            res = Except.error Err.splitFailed))) ∨
       (∃ root s, kec (rawEncoding b) = hh ∧
          rlpAt (rawEncoding b) 3 = some root ∧
          split_rlp_by_state_root (rawEncoding b) root = some s ∧
          ((evs = [Event.hashCheck (rawEncoding b) hh,
              Event.hashCheck (rawEncoding b) hh, Event.padHeader] ∧
            ∃ e, res = Except.error e ∧ e ≠ Err.splitFailed) ∨
           (∃ tl, evs = Event.hashCheck (rawEncoding b) hh ::
                Event.hashCheck (rawEncoding b) hh :: Event.padHeader :: tl ∧
              (∀ ev ∈ tl, isEmit ev = true) ∧ res = Except.ok ()))))) := by
  unfold runMain at h
  split at h
  · injection h with h1 h2
    subst h1; subst h2
    exact Or.inl ⟨rfl, Err.noArgs, rfl, by decide⟩
  · split at h
    · injection h with h1 h2
      subst h1; subst h2
      exact Or.inl ⟨rfl, Err.envVarMissing, rfl, by decide⟩
    · split at h
      · injection h with h1 h2
        subst h1; subst h2
        exact Or.inl ⟨rfl, Err.envVarMissing, rfl, by decide⟩
      · split at h
        · injection h with h1 h2
          subst h1; subst h2
          exact Or.inl ⟨rfl, Err.badBlockNumber, rfl, by decide⟩
        · split at h
          · injection h with h1 h2
            subst h1; subst h2
            exact Or.inr (Or.inl ⟨rfl, rfl, rfl⟩)
          · rcases runFound_shape kec args env _ pr evs res h with h0 | ⟨hh, hb, hrest⟩
            · exact Or.inl h0
            · exact Or.inr (Or.inr ⟨_, hh, rfl, hb, hrest⟩)

theorem emit_not_hashCheck (ev : Event) (h : isEmit ev = true) :
    isHashCheck ev = false := by
  cases ev <;> simp [isEmit, isHashCheck] at h ⊢

theorem mem_two_hc {buf exp raw hh : List Nat} {tl : List Event}
    (htl : ∀ ev ∈ tl, isEmit ev = true)
    (hmem : Event.hashCheck buf exp ∈
      Event.hashCheck raw hh :: Event.hashCheck raw hh :: Event.padHeader :: tl) :
    buf = raw ∧ exp = hh := by
  rcases List.mem_cons.mp hmem with heq | hmem
  · injection heq with h1 h2
    exact ⟨h1, h2⟩
  rcases List.mem_cons.mp hmem with heq | hmem
  · injection heq with h1 h2
    exact ⟨h1, h2⟩
  rcases List.mem_cons.mp hmem with heq | hmem
  · simp at heq
  · have := htl _ hmem
    simp [isEmit] at this

theorem filter_two_hc {raw hh : List Nat} {tl : List Event}
    (htl : ∀ ev ∈ tl, isEmit ev = true) :
    (Event.hashCheck raw hh :: Event.hashCheck raw hh ::
      Event.padHeader :: tl).filter isHashCheck
      = [Event.hashCheck raw hh, Event.hashCheck raw hh] := by
  have h0 : tl.filter isHashCheck = [] := by
    rw [List.filter_eq_nil_iff]
    intro ev hev
    rw [emit_not_hashCheck ev (htl ev hev)]
    simp
  simp [List.filter_cons, isHashCheck, h0]

theorem checksBeforePad_two_hc {raw hh : List Nat} {tl : List Event}
    (htl : ∀ ev ∈ tl, isEmit ev = true) :
    checksBeforePad (Event.hashCheck raw hh :: Event.hashCheck raw hh ::
      Event.padHeader :: tl) = true := by
  simp only [checksBeforePad]
  rw [List.all_eq_true]
  intro x hx
  rw [emit_not_hashCheck x (htl x hx)]
  rfl

theorem no_emit_hcp {raw hh : List Nat} :
    ∀ ev ∈ [Event.hashCheck raw hh, Event.hashCheck raw hh, Event.padHeader],
      isEmit ev = false := by
  intro ev hev
  rcases List.mem_cons.mp hev with h | hev
  · subst h; rfl
  rcases List.mem_cons.mp hev with h | hev
  · subst h; rfl
  rcases List.mem_cons.mp hev with h | hev
  · subst h; rfl
  · exact absurd hev (List.not_mem_nil _)

/-! Claim theorems. -/

/-- Claim C1: for every block whose base-fee-per-gas field is present,
the header encoder announces a 16-item list to begin_list; the base fee
is appended as a sixteenth item exactly when it is nonzero, so a present
but zero base fee leaves a stream whose length bookkeeping assumed 16
items while only the 15 base fields were appended. -/
theorem c1_header_item_count (b : Block) (v : Nat)
    (hv : b.base_fee_per_gas = some v) :
    declaredItems b = 16 ∧ (baseFields b).length = 15 ∧
    (v ≠ 0 → encItems b = baseFields b ++ [encodeNat v] ∧ (encItems b).length = 16) ∧
    (v = 0 → encItems b = baseFields b ∧ (encItems b).length = 15) := by
  refine ⟨by simp [declaredItems, hv], by simp [baseFields], ?_, ?_⟩
  · intro h0
    constructor
    · simp [encItems, baseFeeItems, hv, h0]
    · simp [encItems, baseFeeItems, hv, h0, baseFields]
  · intro h0
    subst h0
    constructor
    · simp [encItems, baseFeeItems, hv]
    · simp [encItems, baseFeeItems, hv, baseFields]

/-- Witness for C1 at the concrete block wBlockZero (base fee present
and zero): the announced count is 16 while 15 items are appended. -/
theorem c1_witness :
    wBlockZero.base_fee_per_gas = some 0 ∧
    declaredItems wBlockZero = 16 ∧ (encItems wBlockZero).length = 15 := by
  have h := c1_header_item_count wBlockZero 0 rfl
  exact ⟨rfl, h.1, (h.2.2.2 rfl).2⟩

/-- Claim C4: an ordered proof whose nodes are all at most
PROOF_BYTES_LEN = 532 bytes and whose node count is at most the
configured depth flattens to exactly depth times width bytes: 5320 for
the account proof (depth 10) and 4788 for the storage proof (depth 9). -/
theorem c4_padding_exactness (accNodes stoNodes : List (List Nat))
    (ha1 : ∀ nd ∈ accNodes, nd.length ≤ PROOF_BYTES_LEN)
    (ha2 : accNodes.length ≤ ACCOUNT_PROOF_MAX_DEPTH)
    (hs1 : ∀ nd ∈ stoNodes, nd.length ≤ PROOF_BYTES_LEN)
    (hs2 : stoNodes.length ≤ STORAGE_PROOF_MAX_DEPTH) :
    ((normalizeProof PROOF_BYTES_LEN ACCOUNT_PROOF_MAX_DEPTH accNodes).flatten).length
      = 5320 ∧
    ((normalizeProof PROOF_BYTES_LEN STORAGE_PROOF_MAX_DEPTH stoNodes).flatten).length
      = 4788 := by
  constructor
  · rw [normalizeProof_flatten_length _ _ _ ha1 ha2]; decide
  · rw [normalizeProof_flatten_length _ _ _ hs1 hs2]; decide

/-- Witness for C4: two small in-contract proofs flatten to exactly 5320
and 4788 bytes. -/
theorem c4_witness :
    (∀ nd ∈ [[1, 2], [3]], List.length nd ≤ PROOF_BYTES_LEN) ∧
    List.length ([[1, 2], [3]] : List (List Nat)) ≤ ACCOUNT_PROOF_MAX_DEPTH ∧
    (∀ nd ∈ [[4]], List.length nd ≤ PROOF_BYTES_LEN) ∧
    List.length ([[4]] : List (List Nat)) ≤ STORAGE_PROOF_MAX_DEPTH ∧
    ((normalizeProof PROOF_BYTES_LEN ACCOUNT_PROOF_MAX_DEPTH [[1, 2], [3]]).flatten).length
      = 5320 ∧
    ((normalizeProof PROOF_BYTES_LEN STORAGE_PROOF_MAX_DEPTH [[4]]).flatten).length
      = 4788 := by
  have h := c4_padding_exactness [[1, 2], [3]] [[4]]
    (by decide) (by decide) (by decide) (by decide)
  exact ⟨by decide, by decide, by decide, by decide, h.1, h.2⟩

/-- Claim C5: the normalizer never shortens or rejects: a node longer
than PROOF_BYTES_LEN is passed through unchanged, its presence makes the
flattened buffer exceed n times PROOF_BYTES_LEN, and for every proof
with at least n nodes — whatever its node sizes — no synthetic node is
added and every node is kept: the output is exactly the per-node-padded
input, with no truncation and no error case in the normalizer. -/
theorem c5_normalizer_never_shortens (nd : List Nat) (nodes : List (List Nat))
    (n : Nat) :
    (PROOF_BYTES_LEN < nd.length → rpad PROOF_BYTES_LEN nd = nd) ∧
    (nd ∈ nodes → PROOF_BYTES_LEN < nd.length →
      n * PROOF_BYTES_LEN < ((normalizeProof PROOF_BYTES_LEN n nodes).flatten).length) ∧
    (n ≤ nodes.length →
      normalizeProof PROOF_BYTES_LEN n nodes = nodes.map (rpad PROOF_BYTES_LEN)) := by
  refine ⟨fun hbig => rpad_of_ge _ _ (Nat.le_of_lt hbig), ?_, ?_⟩
  · intro hmem hbig
    have hmem2 : nd ∈ nodes.map (rpad PROOF_BYTES_LEN) := by
      have := List.mem_map_of_mem (rpad PROOF_BYTES_LEN) hmem
      rwa [rpad_of_ge _ _ (Nat.le_of_lt hbig)] at this
    have hall : ∀ x ∈ nodes.map (rpad PROOF_BYTES_LEN), PROOF_BYTES_LEN ≤ x.length := by
      intro x hx
      rcases List.mem_map.mp hx with ⟨y, _, hEq⟩
      subst hEq
      exact le_rpad_length _ _
    have hstrict := sum_map_length_strict _ PROOF_BYTES_LEN nd hmem2 hall hbig
    have hfill : ((List.replicate (n - nodes.length) (List.replicate PROOF_BYTES_LEN 0)).map
        List.length).sum = (n - nodes.length) * PROOF_BYTES_LEN := by
      simp [List.map_replicate, List.sum_replicate, smul_eq_mul]
    have hflat : ((normalizeProof PROOF_BYTES_LEN n nodes).flatten).length
        = ((nodes.map (rpad PROOF_BYTES_LEN)).map List.length).sum +
          (n - nodes.length) * PROOF_BYTES_LEN := by
      simp [normalizeProof, List.length_flatten, hfill]
    rw [hflat]
    rw [List.length_map] at hstrict
    have hsplit : n * PROOF_BYTES_LEN ≤
        nodes.length * PROOF_BYTES_LEN + (n - nodes.length) * PROOF_BYTES_LEN := by
      rw [← Nat.add_mul]
      exact Nat.mul_le_mul_right _ (by omega)
    omega
  · intro hle
    simp [normalizeProof, Nat.sub_eq_zero_of_le, hle]

/-- Witness for C5 at two over-depth eleven-node proofs with depth 10:
one of 533-byte nodes, exercising the pass-through and excess-length
conclusions, and one of 300-byte in-contract nodes, exercising the
keeps-every-node conclusion without any oversized node. -/
theorem c5_witness :
    wNodeBig ∈ wNodesBig ∧ PROOF_BYTES_LEN < wNodeBig.length ∧
    rpad PROOF_BYTES_LEN wNodeBig = wNodeBig ∧
    ACCOUNT_PROOF_MAX_DEPTH * PROOF_BYTES_LEN <
      ((normalizeProof PROOF_BYTES_LEN ACCOUNT_PROOF_MAX_DEPTH wNodesBig).flatten).length ∧
    normalizeProof PROOF_BYTES_LEN ACCOUNT_PROOF_MAX_DEPTH wNodesBig
      = wNodesBig.map (rpad PROOF_BYTES_LEN) ∧
    ACCOUNT_PROOF_MAX_DEPTH ≤ wNodesMany.length ∧
    (∀ nd ∈ wNodesMany, nd.length ≤ PROOF_BYTES_LEN) ∧
    normalizeProof PROOF_BYTES_LEN ACCOUNT_PROOF_MAX_DEPTH wNodesMany
      = wNodesMany.map (rpad PROOF_BYTES_LEN) := by
  have hmem : wNodeBig ∈ wNodesBig := by decide
  have hbig : PROOF_BYTES_LEN < wNodeBig.length := by decide
  have h1 := c5_normalizer_never_shortens wNodeBig wNodesBig ACCOUNT_PROOF_MAX_DEPTH
  have h2 := c5_normalizer_never_shortens wNodeBig wNodesMany ACCOUNT_PROOF_MAX_DEPTH
  exact ⟨hmem, hbig, h1.1 hbig, h1.2.1 hmem hbig, h1.2.2 (by decide),
    by decide, by decide, h2.2.2 (by decide)⟩

/-- Claim C6: when the splitter succeeds on a buffer and a 32-byte state
root, concatenating the returned head, root and tail segments
reconstructs the original buffer exactly. -/
theorem c6_split_reconstruction (buf root hd rt tl : List Nat)
    (hlen : root.length = 32)
    (hs : split_rlp_by_state_root buf root = some (hd, rt, tl)) :
    hd ++ rt ++ tl = buf := by
  unfold split_rlp_by_state_root at hs
  cases hfind : find_subarray buf root with
  | none => rw [hfind] at hs; cases hs
  | some s =>
    rw [hfind] at hs
    have h1 : hd = buf.take s := by cases hs; rfl
    have h2 : rt = (buf.drop s).take 32 := by cases hs; rfl
    have h3 : tl = buf.drop (s + 32) := by cases hs; rfl
    subst h1; subst h2; subst h3
    rw [List.append_assoc]
    have hdd : buf.drop (s + 32) = (buf.drop s).drop 32 := by
      rw [List.drop_drop, Nat.add_comm]
    rw [hdd, List.take_append_drop, List.take_append_drop]

/-- Witness for C6: the sample 38-byte buffer splits around wRootSplit
and reassembles exactly. -/
theorem c6_witness :
    wRootSplit.length = 32 ∧
    split_rlp_by_state_root wBufSplit wRootSplit
      = some (List.replicate 5 0, wRootSplit, [9]) ∧
    List.replicate 5 0 ++ wRootSplit ++ [9] = wBufSplit := by
  refine ⟨by decide, by decide, ?_⟩
  exact c6_split_reconstruction wBufSplit wRootSplit _ _ _ (by decide) (by decide)

/-- Claim C7 as stated is false: with six 300-byte nodes the six padded
nodes occupy 6 * 532 = 3192 bytes of the 5320-byte output, so its first
1800 bytes do not equal the padded nodes and the bytes from offset 1800
are not the all-zero remainder the claim describes. -/
theorem c7_counterexample :
    ¬ (((normalizeProof PROOF_BYTES_LEN ACCOUNT_PROOF_MAX_DEPTH wNodes6).flatten).length
        = 5320 ∧
      ((normalizeProof PROOF_BYTES_LEN ACCOUNT_PROOF_MAX_DEPTH wNodes6).flatten).take 1800
        = (wNodes6.map (rpad PROOF_BYTES_LEN)).flatten ∧
      ((normalizeProof PROOF_BYTES_LEN ACCOUNT_PROOF_MAX_DEPTH wNodes6).flatten).drop 1800
        = List.replicate 2128 0) := by
  rintro ⟨h1, h2, -⟩
  have hpad : ∀ x ∈ wNodes6.map (rpad PROOF_BYTES_LEN), x.length = PROOF_BYTES_LEN := by
    intro x hx
    rcases List.mem_map.mp hx with ⟨nd, hnd, hEq⟩
    subst hEq
    exact rpad_length_of_le _ _ (by rw [wNodes6_lengths nd hnd]; decide)
  have hA : ((wNodes6.map (rpad PROOF_BYTES_LEN)).flatten).length = 3192 := by
    rw [List.length_flatten, sum_map_length_const _ _ hpad, List.length_map]
    decide
  have hTake := congrArg List.length h2
  rw [List.length_take, h1, hA] at hTake
  omega

/-- Claim C7 amended: normalizing six 300-byte nodes with width 532 and
depth 10 yields a 5320-byte buffer whose first 3192 bytes are the six
nodes each zero-padded to 532 bytes and whose remaining 2128 bytes are
all zero. -/
theorem c7_padding_scenario (nodes : List (List Nat))
    (h6 : nodes.length = 6) (h300 : ∀ nd ∈ nodes, nd.length = 300) :
    ((normalizeProof PROOF_BYTES_LEN ACCOUNT_PROOF_MAX_DEPTH nodes).flatten).length
      = 5320 ∧
    ((normalizeProof PROOF_BYTES_LEN ACCOUNT_PROOF_MAX_DEPTH nodes).flatten).take 3192
      = (nodes.map (rpad PROOF_BYTES_LEN)).flatten ∧
    ((normalizeProof PROOF_BYTES_LEN ACCOUNT_PROOF_MAX_DEPTH nodes).flatten).drop 3192
      = List.replicate 2128 0 := by
  have h1 : ∀ nd ∈ nodes, nd.length ≤ PROOF_BYTES_LEN := by
    intro nd hnd
    rw [h300 nd hnd]
    decide
  have hpadlen : ((nodes.map (rpad PROOF_BYTES_LEN)).flatten).length = 3192 := by
    rw [List.length_flatten]
    have := sum_map_length_const (nodes.map (rpad PROOF_BYTES_LEN)) PROOF_BYTES_LEN
      (by
        intro x hx
        rcases List.mem_map.mp hx with ⟨nd, hnd, hEq⟩
        subst hEq
        exact rpad_length_of_le _ _ (h1 nd hnd))
    rw [this, List.length_map, h6]
    decide
  have h2128 : (4 : Nat) * PROOF_BYTES_LEN = 2128 := by decide
  have hfillflat :
      ((List.replicate 4 (List.replicate PROOF_BYTES_LEN 0)).flatten : List Nat)
        = List.replicate 2128 0 := by
    rw [flatten_replicate_replicate, h2128]
  have hshape : normalizeProof PROOF_BYTES_LEN ACCOUNT_PROOF_MAX_DEPTH nodes
      = nodes.map (rpad PROOF_BYTES_LEN) ++
        List.replicate 4 (List.replicate PROOF_BYTES_LEN 0) := by
    unfold normalizeProof
    rw [List.length_map, h6]
    have h4 : ACCOUNT_PROOF_MAX_DEPTH - 6 = 4 := by decide
    rw [h4]
  refine ⟨?_, ?_, ?_⟩
  · rw [hshape, List.flatten_append, List.length_append, hpadlen, hfillflat]
    simp
  · rw [hshape, List.flatten_append, ← hpadlen, List.take_left]
  · rw [hshape, List.flatten_append, ← hpadlen, List.drop_left, hfillflat]

/-- Witness for C7's amended statement at the concrete six-node proof
wNodes6. -/
theorem c7_witness :
    wNodes6.length = 6 ∧ (∀ nd ∈ wNodes6, nd.length = 300) ∧
    ((normalizeProof PROOF_BYTES_LEN ACCOUNT_PROOF_MAX_DEPTH wNodes6).flatten).length
      = 5320 ∧
    ((normalizeProof PROOF_BYTES_LEN ACCOUNT_PROOF_MAX_DEPTH wNodes6).flatten).drop 3192
      = List.replicate 2128 0 := by
  have h := c7_padding_scenario wNodes6 (by decide) (by decide)
  exact ⟨by decide, by decide, h.1, h.2.2⟩

/-- Claim C8: every zero-padding step (header to BLOCK_HEADER_RLP_BYTES,
each proof node to PROOF_BYTES_LEN) only appends: the first
original-length bytes of the padded result are the original buffer
unchanged, and everything after them is zero bytes. -/
theorem c8_padding_appends_only (buf nd : List Nat) :
    (rpad BLOCK_HEADER_RLP_BYTES buf).take buf.length = buf ∧
    (rpad BLOCK_HEADER_RLP_BYTES buf).drop buf.length
      = List.replicate (BLOCK_HEADER_RLP_BYTES - buf.length) 0 ∧
    (rpad PROOF_BYTES_LEN nd).take nd.length = nd ∧
    (rpad PROOF_BYTES_LEN nd).drop nd.length
      = List.replicate (PROOF_BYTES_LEN - nd.length) 0 := by
  unfold rpad
  exact ⟨List.take_left _ _, List.drop_left _ _, List.take_left _ _, List.drop_left _ _⟩

/-- Claim C2: the keccak digest of the encoded header is compared to the
block's published hash at most twice, exactly twice on any run that
produces parameter output; every comparison is against the same unpadded
buffer (the raw encoding, before the zero-padding step, which follows
every comparison), and a mismatch aborts the run with an error before
any parameter line is emitted. -/
theorem c2_hash_verifier (kec : List Nat → List Nat) (args : List String)
    (env : Env) (block? : Option Block) (pr : Option ProofResponse)
    (evs : List Event) (res : Except Err Unit)
    (hrun : runMain kec args env block? pr = (evs, res)) :
    (∀ buf exp, Event.hashCheck buf exp ∈ evs →
      ∃ b, block? = some b ∧ buf = rawEncoding b ∧ b.hash = some exp) ∧
    (evs.filter isHashCheck).length ≤ 2 ∧
    ((∃ ev ∈ evs, isEmit ev = true) →
      ∃ b hh, block? = some b ∧ b.hash = some hh ∧
        evs.filter isHashCheck =
          [Event.hashCheck (rawEncoding b) hh, Event.hashCheck (rawEncoding b) hh]) ∧
    checksBeforePad evs = true ∧
    (∀ b hh, block? = some b → b.hash = some hh → kec (rawEncoding b) ≠ hh →
      (∃ e, res = Except.error e) ∧ ∀ ev ∈ evs, isEmit ev = false) := by
  rcases runMain_shape kec args env block? pr evs res hrun with
    ⟨hevs, e, herr, -⟩ | ⟨hbq, hevs, hres⟩ | ⟨b, hh, hbq, hb, hcase⟩
  · subst hevs
    refine ⟨by simp, by simp, by simp, rfl, ?_⟩
    intro b0 hh0 _ _ _
    exact ⟨⟨e, herr⟩, by simp⟩
  · subst hevs; subst hbq
    refine ⟨?_, by simp [isHashCheck], ?_, rfl, ?_⟩
    · intro buf exp hmem
      simp at hmem
    · rintro ⟨ev, hev, hemit⟩
      simp at hev
      subst hev
      simp [isEmit] at hemit
    · intro b0 hh0 hbq0 _ _
      cases hbq0
  · rcases hcase with ⟨hevs, hres⟩ | ⟨root, s, hkec, hrlp, hsplit, hcase2⟩
    · subst hevs
      have herr : ∃ e, res = Except.error e := by
        rcases hres with ⟨e, he, -⟩ | ⟨_, _, _, he⟩
        exacts [⟨e, he⟩, ⟨Err.splitFailed, he⟩]
      refine ⟨?_, by simp [isHashCheck], ?_, rfl, ?_⟩
      · intro buf exp hmem
        rcases List.mem_cons.mp hmem with heq | hmem
        · injection heq with h1 h2
          exact ⟨b, hbq, h1, by rw [h2]; exact hb⟩
        · exact absurd hmem (List.not_mem_nil _)
      · rintro ⟨ev, hev, hemit⟩
        rcases List.mem_cons.mp hev with h | hev
        · subst h; simp [isEmit] at hemit
        · exact absurd hev (List.not_mem_nil _)
      · intro b0 hh0 hbq0 hb0 hne
        refine ⟨herr, ?_⟩
        intro ev hev
        rcases List.mem_cons.mp hev with h | hev
        · subst h; rfl
        · exact absurd hev (List.not_mem_nil _)
    · rcases hcase2 with ⟨hevs, e, herr, -⟩ | ⟨tl, hevs, htl, hres2⟩
      · subst hevs
        have htl0 : ∀ ev ∈ ([] : List Event), isEmit ev = true := by simp
        refine ⟨?_, ?_, ?_, checksBeforePad_two_hc htl0, ?_⟩
        · intro buf exp hmem
          obtain ⟨h1, h2⟩ := mem_two_hc htl0 hmem
          exact ⟨b, hbq, h1, by rw [h2]; exact hb⟩
        · rw [filter_two_hc htl0]
          simp
        · rintro ⟨ev, hev, hemit⟩
          rw [no_emit_hcp ev hev] at hemit
          cases hemit
        · intro b0 hh0 hbq0 hb0 hne
          rw [hbq] at hbq0
          injection hbq0 with hb0b
          subst hb0b
          rw [hb] at hb0
          injection hb0 with hhh
          subst hhh
          exact absurd hkec hne
      · subst hevs
        refine ⟨?_, ?_, ?_, checksBeforePad_two_hc htl, ?_⟩
        · intro buf exp hmem
          obtain ⟨h1, h2⟩ := mem_two_hc htl hmem
          exact ⟨b, hbq, h1, by rw [h2]; exact hb⟩
        · rw [filter_two_hc htl]
          simp
        · intro _
          exact ⟨b, hh, hbq, hb, filter_two_hc htl⟩
        · intro b0 hh0 hbq0 hb0 hne
          rw [hbq] at hbq0
          injection hbq0 with hb0b
          subst hb0b
          rw [hb] at hb0
          injection hb0 with hhh
          subst hhh
          exact absurd hkec hne

/-- Witness for C2 at a block whose claimed hash never matches the
digest function: the run aborts at the first comparison with a
hash-mismatch error and emits nothing. -/
theorem c2_witness :
    (runMain wKecBad wArgs wEnv (some wBlockBad) none
      = ([Event.hashCheck (rawEncoding wBlockBad) (List.replicate 32 2)],
         Except.error Err.hashMismatch)) ∧
    wBlockBad.hash = some (List.replicate 32 2) ∧
    wKecBad (rawEncoding wBlockBad) ≠ List.replicate 32 2 ∧
    (∃ e, (Except.error Err.hashMismatch : Except Err Unit) = Except.error e) ∧
    (∀ ev ∈ [Event.hashCheck (rawEncoding wBlockBad) (List.replicate 32 2)],
      isEmit ev = false) := by
  have hrun : runMain wKecBad wArgs wEnv (some wBlockBad) none
      = ([Event.hashCheck (rawEncoding wBlockBad) (List.replicate 32 2)],
         Except.error Err.hashMismatch) := by rfl
  have h := (c2_hash_verifier wKecBad wArgs wEnv (some wBlockBad) none _ _
    hrun).2.2.2.2 wBlockBad (List.replicate 32 2) rfl rfl (by decide)
  exact ⟨hrun, rfl, by decide, h.1, h.2⟩

/-- Claim C3: the splitter returns the split at the first matching
window (head before it, the 32-byte window itself, tail after it), when
no window matches it returns none, and in that case the pipeline run
aborts with an error and emits no parameter output. -/
theorem c3_state_root_locator (buf root : List Nat) (hlen : root.length = 32) :
    (∀ hd rt tl, split_rlp_by_state_root buf root = some (hd, rt, tl) →
      ∃ s, find_subarray buf root = some s ∧ (buf.drop s).take 32 = root ∧
        (∀ j < s, (buf.drop j).take 32 ≠ root) ∧
        hd = buf.take s ∧ rt = (buf.drop s).take 32 ∧ tl = buf.drop (s + 32)) ∧
    (split_rlp_by_state_root buf root = none → ∀ j, (buf.drop j).take 32 ≠ root) ∧
    (∀ (kec : List Nat → List Nat) (args : List String) (env : Env) (b : Block)
      (pr : Option ProofResponse) (evs : List Event) (res : Except Err Unit),
      runMain kec args env (some b) pr = (evs, res) →
      rawEncoding b = buf → rlpAt buf 3 = some root →
      split_rlp_by_state_root buf root = none →
      (∃ e, res = Except.error e) ∧ ∀ ev ∈ evs, isEmit ev = false) := by
  refine ⟨?_, ?_, ?_⟩
  · intro hd rt tl hsp
    unfold split_rlp_by_state_root at hsp
    cases hfind : find_subarray buf root with
    | none => rw [hfind] at hsp; cases hsp
    | some s =>
      rw [hfind] at hsp
      obtain ⟨hbound, hmatch, hmin⟩ := find_subarray_some buf root s hfind
      rw [hlen] at hmatch hmin
      refine ⟨s, rfl, hmatch, hmin, ?_, ?_, ?_⟩
      · cases hsp; rfl
      · cases hsp; rfl
      · cases hsp; rfl
  · intro hnone j
    unfold split_rlp_by_state_root at hnone
    cases hfind : find_subarray buf root with
    | none =>
      have := find_subarray_none buf root hfind j
      rwa [hlen] at this
    | some s => rw [hfind] at hnone; cases hnone
  · intro kec args env b pr evs res hrun hraw hrlp hsplit
    rcases runMain_shape kec args env (some b) pr evs res hrun with
      ⟨hevs, e, herr, -⟩ | ⟨hbq, -, -⟩ | ⟨b0, hh, hbq, hb, hcase⟩
    · subst hevs
      exact ⟨⟨e, herr⟩, by simp⟩
    · cases hbq
    · injection hbq with hb0b
      subst hb0b
      rcases hcase with ⟨hevs, hres⟩ | ⟨root0, s0, hkec, hrlp0, hsplit0, hcase2⟩
      · subst hevs
        have herr : ∃ e, res = Except.error e := by
          rcases hres with ⟨e, he, -⟩ | ⟨_, _, _, he⟩
          exacts [⟨e, he⟩, ⟨Err.splitFailed, he⟩]
        refine ⟨herr, ?_⟩
        intro ev hev
        rcases List.mem_cons.mp hev with h | hev
        · subst h; rfl
        · exact absurd hev (List.not_mem_nil _)
      · exfalso
        rw [hraw] at hrlp0 hsplit0
        rw [hrlp] at hrlp0
        injection hrlp0 with hroots
        subst hroots
        rw [hsplit] at hsplit0
        cases hsplit0

/-- Witness for C3: on the concrete 38-byte buffer the splitter finds
wRootSplit at its first occurrence, offset 5, with the stated head,
window and tail. -/
theorem c3_witness :
    wRootSplit.length = 32 ∧
    ∃ s, find_subarray wBufSplit wRootSplit = some s ∧
      (wBufSplit.drop s).take 32 = wRootSplit ∧
      (∀ j < s, (wBufSplit.drop j).take 32 ≠ wRootSplit) ∧
      List.replicate 5 0 = wBufSplit.take s ∧
      wRootSplit = (wBufSplit.drop s).take 32 ∧
      ([9] : List Nat) = wBufSplit.drop (s + 32) := by
  refine ⟨by decide, ?_⟩
  exact (c3_state_root_locator wBufSplit wRootSplit (by decide)).1
    (List.replicate 5 0) wRootSplit [9] (by decide)

/-- Claim C9: with valid configuration and arguments, a missing block is
reported on standard error and the program exits successfully, producing
no parameter output — unlike every other failure, which is an abort. -/
theorem c9_block_not_found_clean_exit (kec : List Nat → List Nat)
    (args : List String) (env : Env) (pr : Option ProofResponse)
    (u s : String) (n : Nat) (hargs : args.length ≠ 1)
    (h1 : env.mainnet_rpc = some u) (h2 : env.block_number = some s)
    (h3 : from_str_radix_10 s = some n) :
    runMain kec args env none pr
      = ([Event.stderr "Block not found!"], Except.ok ()) := by
  simp [runMain, hargs, h1, h2, h3]

/-- Witness for C9 at the concrete configuration wEnv with a missing
block. -/
theorem c9_witness :
    wArgs.length ≠ 1 ∧ wEnv.mainnet_rpc = some "rpc" ∧
    wEnv.block_number = some "17" ∧ from_str_radix_10 "17" = some 17 ∧
    runMain wKec wArgs wEnv none none
      = ([Event.stderr "Block not found!"], Except.ok ()) := by
  refine ⟨by decide, rfl, rfl, by decide, ?_⟩
  exact c9_block_not_found_clean_exit wKec wArgs wEnv none "rpc" "17" 17
    (by decide) rfl rfl (by decide)

/-- Claim C10: the state root handed to the splitter is decoded from
field index 3 of the very buffer being searched; whenever that decode
succeeds with a 32-byte value that occurs contiguously in the buffer,
the subarray search finds a match, the splitter returns a result, and
the split-failure abort of the pipeline is unreachable. -/
theorem c10_split_abort_unreachable (kec : List Nat → List Nat)
    (args : List String) (env : Env) (b : Block) (pr : Option ProofResponse)
    (v : List Nat) (hdec : rlpAt (rawEncoding b) 3 = some v)
    (hv : v.length = 32)
    (hocc : ∃ i, i + 32 ≤ (rawEncoding b).length ∧
      ((rawEncoding b).drop i).take 32 = v) :
    split_rlp_by_state_root (rawEncoding b) v ≠ none ∧
    (runMain kec args env (some b) pr).2 ≠ Except.error Err.splitFailed := by
  have hsome : split_rlp_by_state_root (rawEncoding b) v ≠ none := by
    intro hnone
    obtain ⟨i, hle, hi⟩ := hocc
    unfold split_rlp_by_state_root at hnone
    cases hfind : find_subarray (rawEncoding b) v with
    | some s => rw [hfind] at hnone; cases hnone
    | none =>
      have := find_subarray_none (rawEncoding b) v hfind i
      rw [hv] at this
      exact this hi
  refine ⟨hsome, ?_⟩
  intro hbad
  rcases hrun : runMain kec args env (some b) pr with ⟨evs, res⟩
  rw [hrun] at hbad
  simp only at hbad
  rcases runMain_shape kec args env (some b) pr evs res hrun with
    ⟨-, e, herr, hne⟩ | ⟨hbq, -, -⟩ | ⟨b0, hh, hbq, hb, hcase⟩
  · rw [herr] at hbad
    injection hbad with he
    exact hne he
  · cases hbq
  · injection hbq with hb0b
    subst hb0b
    rcases hcase with ⟨-, hres⟩ | ⟨root0, s0, -, hrlp0, hsplit0, hcase2⟩
    · rcases hres with ⟨e, he, hne⟩ | ⟨root0, hrlp0, hsplit0, he⟩
      · rw [he] at hbad
        injection hbad with he2
        exact hne he2
      · rw [hdec] at hrlp0
        injection hrlp0 with hroots
        subst hroots
        exact hsome hsplit0
    · rcases hcase2 with ⟨-, e, he, hne⟩ | ⟨tl, -, -, he⟩
      · rw [he] at hbad
        injection hbad with he2
        exact hne he2
      · rw [he] at hbad
        cases hbad

/-- Witness for C10 at the sample block: the decoded state root has 32
bytes, occurs at offset 90 of the 237-byte encoding, and the pipeline
does not abort with the split failure. -/
theorem c10_witness :
    rlpAt wBuf 3 = some wRoot ∧ wRoot.length = 32 ∧
    90 + 32 ≤ wBuf.length ∧ (wBuf.drop 90).take 32 = wRoot ∧
    split_rlp_by_state_root wBuf wRoot ≠ none ∧
    (runMain wKec wArgs wEnv (some wBlock) none).2
      ≠ Except.error Err.splitFailed := by
  have h := c10_split_abort_unreachable wKec wArgs wEnv wBlock none wRoot
    (by decide) (by decide) ⟨90, by decide, by decide⟩
  exact ⟨by decide, by decide, by decide, by decide, h.1, h.2⟩

end NoirMip
